import Mathlib

/-!
Verification of the OKR VO CPU/h accounting aggregator
(`pyOKR_VOs_CPUs_SLAs_Accounting_v0.1.py`).

The script maintains a Google worksheet grid: column 1 holds reporting-period
row labels, row 1 holds VO (entity) column labels.  `get_GWorkSheetCellPosition`
scans column 1 for the slot of the current accounting period;
`get_vo_cell` scans row 1 for the slot of a VO name and inserts a column when
absent; `main` filters the VO registry, fetches accounting records per eligible
VO, accumulates the per-VO counter `CPU/h` and the run total `total_cpu`, and
writes formatted cell values at (period row, VO column).

The embedding below models strings as Lean `String` (Python string comparison
is lexicographic on code points, as is Lean's), worksheet axes as `List String`
of their label cells, the worksheet mutations as a log of `update_cell` calls
together with the evolving row-1 axis, and Python `KeyError` as `Except`
carrying the state at the point the lookup failed.
-/

namespace OKR

/-- Python `pat in hay` (substring containment) on lists of characters:
`startsWithL hay pat` is true when `pat` is a prefix of `hay`. -/
def startsWithL : List Char → List Char → Bool
  | _, [] => true
  | [], _ :: _ => false
  | a :: as, b :: bs => a == b && startsWithL as bs

/-- `hasSubL pat hay` is true when `pat` occurs contiguously inside `hay`. -/
def hasSubL (pat : List Char) : List Char → Bool
  | [] => pat.isEmpty
  | c :: rest => startsWithL (c :: rest) pat || hasSubL pat rest

/-- Python's `pat in hay` on strings. -/
def hasSub (pat hay : String) : Bool :=
  hasSubL pat.toList hay.toList

/-- Python `a < b` on single characters: comparison of Unicode code points. -/
def charLtb (a b : Char) : Bool :=
  Nat.blt a.toNat b.toNat

/-- Python `a < b` on lists of characters: lexicographic comparison by code
point, a strict prefix sorting before its extensions. -/
def listLtb : List Char → List Char → Bool
  | _, [] => false
  | [], _ :: _ => true
  | a :: as, b :: bs =>
    if charLtb a b then true
    else if charLtb b a then false
    else listLtb as bs

/-- Python `a < b` on strings. -/
def pyLtb (a b : String) : Bool :=
  listLtb a.toList b.toList

/-- Python `a <= b` on strings (`¬ b < a` for this total order). -/
def pyLeb (a b : String) : Bool :=
  !pyLtb b a

/-- A label participates in the scans: it does not carry the `"Period"`
header marker and is not the empty first-unused-slot marker. -/
def cleanLabel (l : String) : Prop :=
  hasSub "Period" l = false ∧ l ≠ ""

/-- Strict Python string order as a relation. -/
def strLt (a b : String) : Prop :=
  pyLtb a b = true

/-- Python string order (non-strict) as a relation. -/
def strLe (a b : String) : Prop :=
  pyLeb a b = true

instance : DecidableRel strLt :=
  fun a b => inferInstanceAs (Decidable (pyLtb a b = true))

instance : DecidableRel strLe :=
  fun a b => inferInstanceAs (Decidable (pyLeb a b = true))

instance : DecidablePred cleanLabel :=
  fun l => inferInstanceAs (Decidable (hasSub "Period" l = false ∧ l ≠ ""))

/-- The scan loop of `get_GWorkSheetCellPosition`:
`for header in values_list:` with `pos` the running position counter.
A label containing `"Period"` is skipped; a label equal to the candidate or
empty stops the scan with `found = True`; a label sorting strictly before the
candidate increments `pos`; any other label is passed over. -/
def gwcpLoop (accounting_period : String) : List String → Nat → Nat × Bool
  | [], pos => (pos, false)
  | header :: rest, pos =>
    if hasSub "Period" header then gwcpLoop accounting_period rest pos
    else if header = accounting_period ∨ header = "" then (pos, true)
    else if pyLtb header accounting_period then gwcpLoop accounting_period rest (pos + 1)
    else gwcpLoop accounting_period rest pos

/-- `get_GWorkSheetCellPosition(worksheet, accounting_period)`:
`values_list` is `worksheet.col_values(1)` (the row-label axis).
Returns `(pos, found)`, `pos` starting from base 2. -/
def get_GWorkSheetCellPosition (values_list : List String)
    (accounting_period : String) : Nat × Bool :=
  if 1 < values_list.length then gwcpLoop accounting_period values_list 2
  else (2, false)

/-- The scan loop of `get_vo_cell` over `worksheet.row_values(1)` (the
column-label axis); textually the same loop as `gwcpLoop`, including the
`"Period" not in header` skip. -/
def voCellLoop (vo_name : String) : List String → Nat → Nat × Bool
  | [], pos => (pos, false)
  | header :: rest, pos =>
    if hasSub "Period" header then voCellLoop vo_name rest pos
    else if header = vo_name ∨ header = "" then (pos, true)
    else if pyLtb header vo_name then voCellLoop vo_name rest (pos + 1)
    else voCellLoop vo_name rest pos

/-- The position/found computation of `get_vo_cell` (its scan over row 1,
before the conditional `insert_cols`). -/
def get_vo_cell_position (row1 : List String) (vo_name : String) : Nat × Bool :=
  if 1 < row1.length then voCellLoop vo_name row1 2
  else (2, false)

/-- Insertion of a label at a 1-based axis position, as `insert_cols` /
`insert_row` do on the scanned axis: the new label lands at position `pos`
and every cell from `pos` on shifts by one. -/
def insertAt1 (l : List String) (pos : Nat) (label : String) : List String :=
  l.take (pos - 1) ++ label :: l.drop (pos - 1)

/-- `get_vo_cell(worksheet, vo_name)`: scans row 1 and, when the name was not
found, inserts a column holding `vo_name` at the computed position.
Returns the updated row-1 axis together with `vo_name_pos`. -/
def get_vo_cell (row1 : List String) (vo_name : String) : List String × Nat :=
  let r := get_vo_cell_position row1 vo_name
  if r.2 then (row1, r.1) else (insertAt1 row1 r.1 vo_name, r.1)

/-- The period-row setup in `main`: call `get_GWorkSheetCellPosition` and,
when `found_position` is false, `insert_row([accounting_period, total_cpu])`
at the computed row.  Returns the updated column-1 axis, the row position
used for all later `update_cell` calls, and the found flag. -/
def setupPeriodRow (col1 : List String) (period : String) :
    List String × Nat × Bool :=
  let r := get_GWorkSheetCellPosition col1 period
  if r.2 then (col1, r.1, true) else (insertAt1 col1 r.1 period, r.1, false)

/-- One locate-then-insert step on a row axis (the grid effect of
`setupPeriodRow`, dropping the returned position). -/
def insertLabel (axis : List String) (cand : String) : List String :=
  (setupPeriodRow axis cand).1

/-- A sequence of locate-then-insert steps. -/
def insertAll (axis : List String) (ls : List String) : List String :=
  ls.foldl insertLabel axis

/-- Python `s[-2:]` on a list of characters: the last two characters, or the
whole list when it is shorter (natural subtraction matches Python's clamp). -/
def pyLast2 (s : List Char) : List Char :=
  s.drop (s.length - 2)

/-- The reporting-period label of `main`:
`env['DATE_FROM'][0:4] + "." + env['DATE_FROM'][-2:] + "-" + env['DATE_TO'][-2:]`. -/
def accounting_period (date_from date_to : List Char) : List Char :=
  date_from.take 4 ++ '.' :: (pyLast2 date_from ++ '-' :: pyLast2 date_to)

/-- Comma-grouping of a digit list given least-significant digit first:
a comma after every three digits. -/
def commaGroup : List Char → List Char
  | a :: b :: c :: d :: rest => a :: b :: c :: ',' :: commaGroup (d :: rest)
  | l => l

/-- Python `format(n, "7,d")`: decimal digits grouped by thousands with
commas, right-aligned with spaces to a minimum width of 7. -/
def pyFormat7d (n : Int) : String :=
  let digits := ((commaGroup (Nat.toDigits 10 n.natAbs).reverse).reverse)
  let signed := if n < 0 then '-' :: digits else digits
  ⟨List.replicate (7 - signed.length) ' ' ++ signed⟩

/-- The environment settings consumed by the eligibility filter. -/
structure Env where
  ACCOUNTING_SCOPE : String
  DATE_FROM : String
  DATE_TO : String

/-- One VO entry of `VOs.json` as read by `main` (`details`), with the
`CPU/h` counter already as the integer that `int(details['CPU/h'])` yields. -/
structure VODetails where
  Name : String
  vo_type : String
  SLA_start : String
  SLA_end : String
  Active : String
  cpu : Int

/-- One accounting record; a missing field models a key on which a Python
`record[...]` lookup would raise `KeyError`. -/
structure Record where
  id : Option String
  Total : Option Int

/-- The run state threaded through the record/entity loops: the row-1 axis
(as re-read by each `get_vo_cell` call), the log of `update_cell` calls as
(row, column, value) triples, the run-total accumulator `total_cpu`, and the
log of accounting fetches issued. -/
structure AggState where
  colAxis : List String
  cells : List (Nat × Nat × String)
  total_cpu : Int
  fetches : List String

/-- The eligibility test of the registry loop in `main`:
`(env['ACCOUNTING_SCOPE'] in details['Type']) and
 (env['DATE_FROM'] >= details['SLA_start']) and
 (env['DATE_TO'] <= details['SLA_end']) and details['Active'] == "Y"`. -/
def eligible (env : Env) (d : VODetails) : Bool :=
  hasSub env.ACCOUNTING_SCOPE d.vo_type
    && pyLeb d.SLA_start env.DATE_FROM
    && pyLeb env.DATE_TO d.SLA_end
    && (d.Active == "Y")

/-- The `if "Total" in record['id']:` branch of the record loop: reads
`record['Total']` (a `KeyError` when absent), adds it to the VO counter and
to `total_cpu`, resolves the VO column via `get_vo_cell`, and logs the
`update_cell` write of the formatted total at (period row, VO column). -/
def processTotalBranch (pp : Nat) (d : VODetails) (s : AggState) (r : Record)
    (id : String) : Except (VODetails × AggState) (VODetails × AggState) :=
  if hasSub "Total" id then
    match r.Total with
    | none => Except.error (d, s)
    | some t =>
      let d1 : VODetails := { d with cpu := d.cpu + t }
      let s1 : AggState := { s with total_cpu := s.total_cpu + t }
      let vc := get_vo_cell s1.colAxis d.Name
      Except.ok (d1, { s1 with
        colAxis := vc.1
        cells := s1.cells ++ [(pp, vc.2, pyFormat7d t)] })
  else Except.ok (d, s)

/-- One iteration of `for record in data:`.  `record['id']` is read first
(the provider-print guard), and when neither marker matches, the provider
print reads `record['Total']`; either missing key raises, carrying the state
at the raise point into the error. -/
def processRecord (pp : Nat) (d : VODetails) (s : AggState) (r : Record) :
    Except (VODetails × AggState) (VODetails × AggState) :=
  match r.id with
  | none => Except.error (d, s)
  | some id =>
    if !hasSub "Percent" id && !hasSub "Total" id then
      match r.Total with
      | none => Except.error (d, s)
      | some _ => processTotalBranch pp d s r id
    else processTotalBranch pp d s r id

/-- The whole record loop of one entity: stops at the first raising record. -/
def processRecords (pp : Nat) :
    List Record → VODetails → AggState →
      Except (VODetails × AggState) (VODetails × AggState)
  | [], d, s => Except.ok (d, s)
  | r :: rs, d, s =>
    match processRecord pp d s r with
    | Except.ok (d1, s1) => processRecords pp rs d1 s1
    | Except.error e => Except.error e

/-- One registry entry in `main`: the eligibility filter, then
`get_accounting_data` (logged in `fetches`), then the record loop wrapped in
`try ... except (KeyError): pass` — an error is caught and the state at the
raise point is kept. -/
def runEntity (env : Env) (fetch : String → List Record) (pp : Nat)
    (d : VODetails) (s : AggState) : VODetails × AggState :=
  if eligible env d then
    let s1 : AggState := { s with fetches := s.fetches ++ [d.Name] }
    match processRecords pp (fetch d.Name) d s1 with
    | Except.ok r => r
    | Except.error r => r
  else (d, s)

/-- The flattened registry loop of `main` over a list of VO entries. -/
def runVOList (env : Env) (fetch : String → List Record) (pp : Nat) :
    List VODetails → AggState → AggState
  | [], s => s
  | d :: ds, s => runVOList env fetch pp ds (runEntity env fetch pp d s).2

/-- The contribution a single record makes to the totals: its `Total` value
when its id carries the `"Total"` marker, and nothing otherwise. -/
def qualifyingTotal (r : Record) : Int :=
  match r.id, r.Total with
  | some id, some t => if hasSub "Total" id then t else 0
  | _, _ => 0

/-- Sum of the contributions of a fetch result. -/
def qualifyingSum (rs : List Record) : Int :=
  (rs.map qualifyingTotal).sum

/-- The state carried by a record-processing outcome: the final state on
success, the state at the raise point on a `KeyError`. -/
def stateOf (e : Except (VODetails × AggState) (VODetails × AggState)) :
    AggState :=
  match e with
  | Except.ok x => x.2
  | Except.error x => x.2

/-- A sample VO registry entry used to instantiate proved theorems. -/
def sampleVO : VODetails :=
  { Name := "alpha", vo_type := "htc", SLA_start := "2024/01",
    SLA_end := "2024/12", Active := "Y", cpu := 0 }

/-- A sample environment matching `sampleVO`. -/
def sampleEnv : Env :=
  { ACCOUNTING_SCOPE := "htc", DATE_FROM := "2024/01", DATE_TO := "2024/06" }

/-- An environment whose scope does not occur in `sampleVO`'s type. -/
def mismatchEnv : Env :=
  { ACCOUNTING_SCOPE := "cloud", DATE_FROM := "2024/01", DATE_TO := "2024/06" }

/-- The run state at the start of processing: header-only column axis, no
writes, zero run total, no fetches. -/
def emptyState : AggState :=
  { colAxis := ["Period"], cells := [], total_cpu := 0, fetches := [] }

/-- A sample fetch result: one per-provider record and one total record. -/
def sampleFetch : String → List Record :=
  fun _ => [⟨some "site1", some 40⟩, ⟨some "alpha-Total", some 300⟩]

/-- The column-axis effect of one `get_vo_cell` call. -/
def colInsertLabel (axis : List String) (c : String) : List String :=
  (get_vo_cell axis c).1

/-- A sequence of `get_vo_cell` calls, tracking the column axis. -/
def colInsertAll (axis : List String) (ls : List String) : List String :=
  ls.foldl colInsertLabel axis

/-! ### Order facts for the Python string comparison -/

theorem charLtb_iff {a b : Char} : charLtb a b = true ↔ a.toNat < b.toNat := by
  simp [charLtb]

theorem charLtb_false_iff {a b : Char} : charLtb a b = false ↔ ¬ a.toNat < b.toNat := by
  rw [← Bool.not_eq_true, charLtb_iff]

theorem charLtb_irrefl (a : Char) : charLtb a a = false := by
  rw [charLtb_false_iff]; omega

theorem charToNat_inj {a b : Char} (h : a.toNat = b.toNat) : a = b :=
  Char.ext (UInt32.toNat.inj h)

theorem charLtb_connex {a b : Char} (h1 : charLtb a b = false)
    (h2 : charLtb b a = false) : a = b := by
  rw [charLtb_false_iff] at h1 h2
  exact charToNat_inj (by omega)

theorem charLtb_trans {a b c : Char} (h1 : charLtb a b = true)
    (h2 : charLtb b c = true) : charLtb a c = true := by
  rw [charLtb_iff] at *
  omega

theorem listLtb_irrefl (l : List Char) : listLtb l l = false := by
  induction l with
  | nil => rfl
  | cons a as ih => simp [listLtb, charLtb_irrefl, ih]

theorem listLtb_connex : ∀ {a b : List Char}, listLtb a b = false →
    listLtb b a = false → a = b
  | [], [], _, _ => rfl
  | [], _ :: _, h1, _ => by simp [listLtb] at h1
  | _ :: _, [], _, h2 => by simp [listLtb] at h2
  | a :: as, b :: bs, h1, h2 => by
    simp only [listLtb] at h1 h2
    by_cases hab : charLtb a b = true
    · simp [hab] at h1
    · rw [Bool.not_eq_true] at hab
      by_cases hba : charLtb b a = true
      · simp [hba] at h2
      · rw [Bool.not_eq_true] at hba
        have he : a = b := charLtb_connex hab hba
        subst he
        simp only [hab, charLtb_irrefl, if_neg, Bool.false_eq_true, ite_false] at h1 h2
        rw [listLtb_connex h1 h2]

theorem listLtb_trans : ∀ {a b c : List Char}, listLtb a b = true →
    listLtb b c = true → listLtb a c = true
  | _, _, [], _, h2 => by simp [listLtb] at h2
  | _, [], _ :: _, h1, _ => by simp [listLtb] at h1
  | [], _ :: _, _ :: _, _, _ => rfl
  | a :: as, b :: bs, c :: cs, h1, h2 => by
    simp only [listLtb] at h1 h2 ⊢
    by_cases hab : charLtb a b = true
    · by_cases hbc : charLtb b c = true
      · simp [charLtb_trans hab hbc]
      · rw [Bool.not_eq_true] at hbc
        by_cases hcb : charLtb c b = true
        · simp [hbc, hcb] at h2
        · rw [Bool.not_eq_true] at hcb
          have he : b = c := charLtb_connex hbc hcb
          subst he
          simp [hab]
    · rw [Bool.not_eq_true] at hab
      by_cases hba : charLtb b a = true
      · simp [hab, hba] at h1
      · rw [Bool.not_eq_true] at hba
        have he : a = b := charLtb_connex hab hba
        subst he
        simp only [charLtb_irrefl, Bool.false_eq_true, ite_false] at h1
        by_cases hac : charLtb a c = true
        · simp [hac]
        · rw [Bool.not_eq_true] at hac
          by_cases hca : charLtb c a = true
          · simp [hac, hca] at h2
          · rw [Bool.not_eq_true] at hca
            have he2 : a = c := charLtb_connex hac hca
            subst he2
            simp only [charLtb_irrefl, Bool.false_eq_true, ite_false] at h1 h2 ⊢
            exact listLtb_trans h1 h2

theorem strLt_irrefl (a : String) : pyLtb a a = false :=
  listLtb_irrefl a.toList

theorem strLt_ne {a b : String} (h : pyLtb a b = true) : a ≠ b := by
  intro he
  subst he
  rw [strLt_irrefl] at h
  exact Bool.false_ne_true h

theorem strLt_trans {a b c : String} (h1 : pyLtb a b = true)
    (h2 : pyLtb b c = true) : pyLtb a c = true :=
  listLtb_trans h1 h2

theorem strLt_connex {a b : String} (h1 : pyLtb a b = false)
    (h2 : pyLtb b a = false) : a = b :=
  String.toList_inj.mp (listLtb_connex h1 h2)

theorem strLeb_iff {a b : String} : pyLeb a b = true ↔ pyLtb b a = false := by
  simp [pyLeb]

theorem strLe_trans {a b c : String} (h1 : pyLeb a b = true)
    (h2 : pyLeb b c = true) : pyLeb a c = true := by
  rw [strLeb_iff] at h1 h2 ⊢
  by_cases hca : pyLtb c a = true
  · exfalso
    by_cases hbc : pyLtb b c = true
    · have hba := strLt_trans hbc hca
      rw [h1] at hba
      exact Bool.false_ne_true hba
    · rw [Bool.not_eq_true] at hbc
      have he : c = b := strLt_connex h2 hbc
      subst he
      rw [h1] at hca
      exact Bool.false_ne_true hca
  · rwa [Bool.not_eq_true] at hca

theorem strLt_of_le_of_ne {a b : String} (h1 : pyLeb a b = true)
    (h2 : a ≠ b) : pyLtb a b = true := by
  rw [strLeb_iff] at h1
  by_cases hab : pyLtb a b = true
  · exact hab
  · rw [Bool.not_eq_true] at hab
    exact absurd (strLt_connex hab h1) h2

theorem strLe_of_lt {a b : String} (h : pyLtb a b = true) : pyLeb a b = true := by
  rw [strLeb_iff]
  by_cases hba : pyLtb b a = true
  · have haa := strLt_trans h hba
    rw [strLt_irrefl] at haa
    exact absurd haa Bool.false_ne_true
  · rwa [Bool.not_eq_true] at hba

/-! ### Scan lemmas -/

theorem voCellLoop_eq_gwcpLoop (c : String) :
    ∀ (l : List String) (p : Nat), voCellLoop c l p = gwcpLoop c l p
  | [], _ => rfl
  | h :: t, p => by
    simp only [voCellLoop, gwcpLoop]
    split
    · exact voCellLoop_eq_gwcpLoop c t p
    · split
      · rfl
      · split
        · exact voCellLoop_eq_gwcpLoop c t (p + 1)
        · exact voCellLoop_eq_gwcpLoop c t p

theorem get_vo_cell_position_eq (axis : List String) (c : String) :
    get_vo_cell_position axis c = get_GWorkSheetCellPosition axis c := by
  simp only [get_vo_cell_position, get_GWorkSheetCellPosition,
    voCellLoop_eq_gwcpLoop]

theorem gwcpLoop_skip {h : String} (cand : String) (t : List String) (p : Nat)
    (hh : hasSub "Period" h = true) :
    gwcpLoop cand (h :: t) p = gwcpLoop cand t p := by
  simp [gwcpLoop, hh]

theorem gwcp_cons {hd cand : String} {rest : List String}
    (hhd : hasSub "Period" hd = true) :
    get_GWorkSheetCellPosition (hd :: rest) cand = gwcpLoop cand rest 2 := by
  cases rest with
  | nil => simp [get_GWorkSheetCellPosition, gwcpLoop]
  | cons r rs =>
    have hlen : 1 < (hd :: r :: rs).length := by simp
    simp only [get_GWorkSheetCellPosition, if_pos hlen]
    exact gwcpLoop_skip cand (r :: rs) 2 hhd

theorem gwcpLoop_all_lt (cand : String) :
    ∀ (rest : List String) (p : Nat),
      (∀ l ∈ rest, cleanLabel l ∧ pyLtb l cand = true) →
      gwcpLoop cand rest p = (p + rest.length, false)
  | [], p, _ => rfl
  | h :: t, p, hall => by
    obtain ⟨⟨hper, hne⟩, hlt⟩ := hall h (List.mem_cons_self h t)
    have hnc : ¬(h = cand ∨ h = "") := by
      rintro (rfl | rfl)
      · rw [strLt_irrefl] at hlt; exact Bool.false_ne_true hlt
      · exact hne rfl
    simp only [gwcpLoop, hper, Bool.false_eq_true, if_neg, if_false,
      if_neg hnc, hlt, if_pos]
    rw [gwcpLoop_all_lt cand t (p + 1) (fun l hl => hall l (List.mem_cons_of_mem h hl))]
    have harith : p + 1 + t.length = p + (h :: t).length := by
      simp only [List.length_cons]
      omega
    rw [harith]

theorem gwcpLoop_found (cand e : String) (he : e = cand ∨ e = "")
    (heclean : hasSub "Period" e = false) :
    ∀ (pre : List String) (post : List String) (p : Nat),
      (∀ l ∈ pre, cleanLabel l ∧ pyLtb l cand = true) →
      gwcpLoop cand (pre ++ e :: post) p = (p + pre.length, true)
  | [], post, p, _ => by
    simp only [List.nil_append, gwcpLoop, heclean, Bool.false_eq_true, if_false,
      if_pos he, List.length_nil, Nat.add_zero]
  | h :: t, post, p, hall => by
    obtain ⟨⟨hper, hne⟩, hlt⟩ := hall h (List.mem_cons_self h t)
    have hnc : ¬(h = cand ∨ h = "") := by
      rintro (rfl | rfl)
      · rw [strLt_irrefl] at hlt; exact Bool.false_ne_true hlt
      · exact hne rfl
    simp only [List.cons_append, List.append_eq, gwcpLoop, hper,
      Bool.false_eq_true, if_false, if_neg hnc, hlt, if_pos]
    rw [gwcpLoop_found cand e he heclean t post (p + 1)
      (fun l hl => hall l (List.mem_cons_of_mem h hl))]
    have harith : p + 1 + t.length = p + (h :: t).length := by
      simp only [List.length_cons]
      omega
    rw [harith]

/-! ### Claim theorems -/

/-- C10: for every axis whose value list has zero or one labels (header
only), both positioners return the base position 2 (the first data slot)
and `exists = false`. -/
theorem C10_header_only_axis_base (axis : List String) (cand : String)
    (h : axis.length ≤ 1) :
    get_GWorkSheetCellPosition axis cand = (2, false)
    ∧ get_vo_cell_position axis cand = (2, false) := by
  have hn : ¬ 1 < axis.length := by omega
  refine ⟨?_, ?_⟩
  · simp [get_GWorkSheetCellPosition, hn]
  · simp [get_vo_cell_position, hn]

/-- Witness for C10 at the header-only axis `["Period"]`. -/
theorem C10_header_only_axis_base_witness :
    (["Period"] : List String).length ≤ 1
    ∧ get_GWorkSheetCellPosition ["Period"] "2024.01-06" = (2, false)
    ∧ get_vo_cell_position ["Period"] "2024.01-06" = (2, false) :=
  ⟨by decide,
   (C10_header_only_axis_base ["Period"] "2024.01-06" (by decide)).1,
   (C10_header_only_axis_base ["Period"] "2024.01-06" (by decide)).2⟩

/-- C9: for every configured date pair whose from-date starts with a
four-character year and ends with a two-character month, and whose to-date
ends with a two-character month, the reporting-period row label is the
year and month of the from-date followed by the month of the to-date,
in the form `YYYY.MM-MM`. -/
theorem C9_period_label_shape (y s1 m1 p2 m2 : List Char)
    (hy : y.length = 4) (hm1 : m1.length = 2) (hm2 : m2.length = 2) :
    accounting_period (y ++ s1 ++ m1) (p2 ++ m2)
      = y ++ '.' :: (m1 ++ '-' :: m2) := by
  have h1 : (y ++ s1 ++ m1).take 4 = y := by
    rw [List.append_assoc, ← hy, List.take_left]
  have h2 : pyLast2 (y ++ s1 ++ m1) = m1 := by
    unfold pyLast2
    have hl : (y ++ s1 ++ m1).length - 2 = (y ++ s1).length := by
      simp only [List.length_append, hy, hm1]
      omega
    rw [hl, List.drop_left]
  have h3 : pyLast2 (p2 ++ m2) = m2 := by
    unfold pyLast2
    have hl : (p2 ++ m2).length - 2 = p2.length := by
      simp only [List.length_append, hm2]
      omega
    rw [hl, List.drop_left]
  unfold accounting_period
  rw [h1, h2, h3]

/-- Witness for C9 at the dates `2024/01` and `2024/06`: the label is
`2024.01-06`. -/
theorem C9_period_label_shape_witness :
    ("2024".toList.length = 4 ∧ "01".toList.length = 2
      ∧ "06".toList.length = 2)
    ∧ accounting_period ("2024".toList ++ "/".toList ++ "01".toList)
        ("2024/".toList ++ "06".toList)
      = "2024".toList ++ '.' :: ("01".toList ++ '-' :: "06".toList) :=
  ⟨⟨by decide, by decide, by decide⟩,
   C9_period_label_shape "2024".toList "/".toList "01".toList
     "2024/".toList "06".toList (by decide) (by decide) (by decide)⟩

/-- C2 counterexample: the claim says the column scan does not skip labels
by the header-marker substring, so every non-empty column label takes part
in the ordering comparison.  On the column axis `["Period", "AccPeriod"]`
with candidate `"ZZ"`, the non-empty label `"AccPeriod"` sorts strictly
before `"ZZ"`, so participation would drive the returned position past 2;
yet the scan, skipping it for containing `"Period"`, returns `(2, false)`. -/
theorem C2_counterexample :
    hasSub "Period" "AccPeriod" = true
    ∧ "AccPeriod" ≠ ""
    ∧ pyLtb "AccPeriod" "ZZ" = true
    ∧ get_vo_cell_position ["Period", "AccPeriod"] "ZZ" = (2, false) := by
  refine ⟨by decide, by decide, by decide, by decide⟩

/-- C2 (amended): the column scan applies the same `"Period"`-substring skip
as the row scan — the two positioners are one and the same computation — and
additionally treats an empty label (and only then the remaining labels'
comparisons) as "insertion point found". -/
theorem C2_column_scan_same_as_row_scan :
    (∀ (axis : List String) (cand : String),
      get_vo_cell_position axis cand = get_GWorkSheetCellPosition axis cand)
    ∧ (∀ (cand h : String) (t : List String) (p : Nat),
        hasSub "Period" h = true →
          voCellLoop cand (h :: t) p = voCellLoop cand t p)
    ∧ (∀ (cand h : String) (t : List String) (p : Nat),
        hasSub "Period" h = false → h = "" →
          voCellLoop cand (h :: t) p = (p, true)) := by
  refine ⟨get_vo_cell_position_eq, ?_, ?_⟩
  · intro cand h t p hh
    simp [voCellLoop, hh]
  · intro cand h t p hh he
    subst he
    simp [voCellLoop, hh]

/-- Witness for the amended C2: the label `"AccPeriod"` is skipped by the
column scan, and an empty label stops it. -/
theorem C2_column_scan_same_as_row_scan_witness :
    (hasSub "Period" "AccPeriod" = true
      ∧ voCellLoop "ZZ" ["AccPeriod"] 2 = voCellLoop "ZZ" [] 2)
    ∧ (hasSub "Period" "" = false
      ∧ voCellLoop "ZZ" [""] 2 = (2, true)) :=
  ⟨⟨by decide,
    C2_column_scan_same_as_row_scan.2.1 "ZZ" "AccPeriod" [] 2 (by decide)⟩,
   ⟨by decide,
    C2_column_scan_same_as_row_scan.2.2 "ZZ" "" [] 2 (by decide) rfl⟩⟩

/-- C1 counterexample: the claim says a record whose id carries both the
`"Total"` and the `"Percent"` marker contributes nothing.  Processing the
record `{id: "Total-Percent", Total: 50}` from the zero state in fact raises
the run total and the VO counter to 50: the code tests only `"Total" in
record['id']` before contributing. -/
theorem C1_counterexample :
    hasSub "Total" "Total-Percent" = true
    ∧ hasSub "Percent" "Total-Percent" = true
    ∧ processRecord 2 sampleVO emptyState ⟨some "Total-Percent", some 50⟩
        = Except.ok ({ sampleVO with cpu := 50 },
            { emptyState with
              total_cpu := 50
              colAxis := ["Period", "alpha"]
              cells := [(2, 2, "     50")] }) := by
  refine ⟨by decide, by decide, by rfl⟩

/-- C1 (amended): a fetched record of an eligible entity contributes its
`Total` value to the entity's cumulative counter and to the run-total
accumulator exactly when its id contains the substring `"Total"`; the
`"Percent"` marker has no effect on contribution (it only silences the
per-provider informational print). -/
theorem C1_contribution_iff_total_marker (pp : Nat) (d : VODetails)
    (s : AggState) (r : Record) (id : String) (t : Int)
    (hid : r.id = some id) (ht : r.Total = some t) :
    (hasSub "Total" id = true →
      ∃ d1 s1, processRecord pp d s r = Except.ok (d1, s1)
        ∧ s1.total_cpu = s.total_cpu + t ∧ d1.cpu = d.cpu + t)
    ∧ (hasSub "Total" id = false →
      processRecord pp d s r = Except.ok (d, s)) := by
  constructor
  · intro htot
    simp only [processRecord, hid, ht, processTotalBranch, htot, Bool.not_true,
      Bool.and_false, Bool.false_eq_true, if_false, if_true]
    exact ⟨_, _, rfl, rfl, rfl⟩
  · intro hfalse
    by_cases hperc : hasSub "Percent" id = true
    · simp only [processRecord, hid, ht, processTotalBranch, hfalse, hperc,
        Bool.not_true, Bool.not_false, Bool.false_and, Bool.false_eq_true,
        if_false]
    · rw [Bool.not_eq_true] at hperc
      simp only [processRecord, hid, ht, processTotalBranch, hfalse, hperc,
        Bool.not_false, Bool.true_and, Bool.false_eq_true, if_false, if_true]

/-- Witness for the amended C1: a record with both markers contributes, and
a record with neither does not. -/
theorem C1_contribution_iff_total_marker_witness :
    (hasSub "Total" "UK-Total-Percent" = true
      ∧ ∃ d1 s1,
          processRecord 2 sampleVO emptyState
              ⟨some "UK-Total-Percent", some 50⟩ = Except.ok (d1, s1)
          ∧ s1.total_cpu = emptyState.total_cpu + 50
          ∧ d1.cpu = sampleVO.cpu + 50)
    ∧ (hasSub "Total" "UK-site" = false
      ∧ processRecord 2 sampleVO emptyState ⟨some "UK-site", some 40⟩
          = Except.ok (sampleVO, emptyState)) :=
  ⟨⟨by decide,
    (C1_contribution_iff_total_marker 2 sampleVO emptyState
      ⟨some "UK-Total-Percent", some 50⟩ "UK-Total-Percent" 50 rfl rfl).1
      (by decide)⟩,
   ⟨by decide,
    (C1_contribution_iff_total_marker 2 sampleVO emptyState
      ⟨some "UK-site", some 40⟩ "UK-site" 40 rfl rfl).2 (by decide)⟩⟩

/-- C3: for every grid whose axis is a header (carrying the `"Period"`
marker) followed by strictly sorted participating labels among which the
candidate occurs, locating the candidate is a no-op on the grid and returns
`exists = true` together with the candidate's original 1-based position —
on the row axis (`get_GWorkSheetCellPosition` / `setupPeriodRow`) and on
the column axis (`get_vo_cell`) alike; and repeated calls of the positioner
on the same grid state and candidate return the same result. -/
theorem C3_locate_present_is_noop (hd cand : String) (pre post : List String)
    (hhd : hasSub "Period" hd = true)
    (hsorted : (pre ++ cand :: post).Pairwise strLt)
    (hclean : ∀ l ∈ pre ++ cand :: post, cleanLabel l) :
    get_GWorkSheetCellPosition (hd :: (pre ++ cand :: post)) cand
      = (pre.length + 2, true)
    ∧ setupPeriodRow (hd :: (pre ++ cand :: post)) cand
      = (hd :: (pre ++ cand :: post), pre.length + 2, true)
    ∧ get_vo_cell (hd :: (pre ++ cand :: post)) cand
      = (hd :: (pre ++ cand :: post), pre.length + 2)
    ∧ get_GWorkSheetCellPosition (hd :: (pre ++ cand :: post)) cand
      = get_GWorkSheetCellPosition (hd :: (pre ++ cand :: post)) cand := by
  have hprelt : ∀ l ∈ pre, cleanLabel l ∧ pyLtb l cand = true := by
    intro l hl
    refine ⟨hclean l (List.mem_append_left _ hl), ?_⟩
    exact (List.pairwise_append.mp hsorted).2.2 l hl cand
      (List.mem_cons_self _ _)
  have hcandclean : hasSub "Period" cand = false :=
    (hclean cand (List.mem_append_right _ (List.mem_cons_self _ _))).1
  have hscan : gwcpLoop cand (pre ++ cand :: post) 2 = (pre.length + 2, true) := by
    rw [gwcpLoop_found cand cand (Or.inl rfl) hcandclean pre post 2 hprelt]
    rw [Nat.add_comm]
  have hpos : get_GWorkSheetCellPosition (hd :: (pre ++ cand :: post)) cand
      = (pre.length + 2, true) := by
    rw [gwcp_cons hhd, hscan]
  refine ⟨hpos, ?_, ?_, rfl⟩
  · simp [setupPeriodRow, hpos]
  · simp [get_vo_cell, get_vo_cell_position_eq, hpos]

/-- Witness for C3: the period `2024.01-06`, already present at row 3 of a
sorted axis, is found there and nothing is inserted. -/
theorem C3_locate_present_is_noop_witness :
    (hasSub "Period" "Period" = true
      ∧ (["2023.01-06", "2024.01-06"] : List String).Pairwise strLt
      ∧ ∀ l ∈ (["2023.01-06", "2024.01-06"] : List String), cleanLabel l)
    ∧ get_GWorkSheetCellPosition ["Period", "2023.01-06", "2024.01-06"]
        "2024.01-06" = (3, true)
    ∧ get_vo_cell ["Period", "2023.01-06", "2024.01-06"] "2024.01-06"
        = (["Period", "2023.01-06", "2024.01-06"], 3) :=
  ⟨⟨by decide, by decide, by decide⟩,
   (C3_locate_present_is_noop "Period" "2024.01-06" ["2023.01-06"] []
     (by decide) (by decide) (by decide)).1,
   (C3_locate_present_is_noop "Period" "2024.01-06" ["2023.01-06"] []
     (by decide) (by decide) (by decide)).2.2.1⟩

/-- C5: the registry eligibility test evaluates, in order and with
short-circuit, scope-in-type, `date_from ≥ SLA_start`, `date_to ≤ SLA_end`
and `Active == "Y"`; an entity failing any of the four is skipped entirely:
no accounting fetch is issued and no grid write occurs (its processing
leaves the registry entry and the whole run state untouched). -/
theorem C5_eligibility_order_and_soundness (env : Env)
    (fetch : String → List Record) (pp : Nat) (d : VODetails) (s : AggState) :
    (eligible env d =
      if hasSub env.ACCOUNTING_SCOPE d.vo_type = true then
        if pyLeb d.SLA_start env.DATE_FROM = true then
          if pyLeb env.DATE_TO d.SLA_end = true then d.Active == "Y"
          else false
        else false
      else false)
    ∧ (eligible env d = false → runEntity env fetch pp d s = (d, s)) := by
  constructor
  · unfold eligible
    cases hasSub env.ACCOUNTING_SCOPE d.vo_type <;>
      cases pyLeb d.SLA_start env.DATE_FROM <;>
        cases pyLeb env.DATE_TO d.SLA_end <;> simp
  · intro hfalse
    simp [runEntity, hfalse]

/-- Witness for C5: under a scope mismatch, `sampleVO` is ineligible and its
processing changes nothing — no fetch logged, no cell written. -/
theorem C5_eligibility_order_and_soundness_witness :
    eligible mismatchEnv sampleVO = false
    ∧ runEntity mismatchEnv (fun _ => [⟨some "Total", some 7⟩]) 2 sampleVO
        emptyState = (sampleVO, emptyState) :=
  ⟨by decide,
   (C5_eligibility_order_and_soundness mismatchEnv
     (fun _ => [⟨some "Total", some 7⟩]) 2 sampleVO emptyState).2 (by decide)⟩

theorem insertAt1_append (l : List String) (c : String) :
    insertAt1 l (l.length + 1) c = l ++ [c] := by
  unfold insertAt1
  simp only [Nat.add_sub_cancel, List.take_length, List.drop_length]

theorem insertLabel_mem (hd c : String) (rest : List String)
    (hhd : hasSub "Period" hd = true) (hmem : c ∈ rest)
    (hsorted : rest.Pairwise strLt) (hclean : ∀ l ∈ rest, cleanLabel l) :
    insertLabel (hd :: rest) c = hd :: rest := by
  obtain ⟨s, t, rfl⟩ := List.append_of_mem hmem
  have hpre : ∀ l ∈ s, cleanLabel l ∧ pyLtb l c = true := by
    intro l hl
    exact ⟨hclean l (List.mem_append_left _ hl),
      (List.pairwise_append.mp hsorted).2.2 l hl c (List.mem_cons_self _ _)⟩
  have hcc : hasSub "Period" c = false :=
    (hclean c (List.mem_append_right _ (List.mem_cons_self _ _))).1
  have hpos : get_GWorkSheetCellPosition (hd :: (s ++ c :: t)) c
      = (2 + s.length, true) := by
    rw [gwcp_cons hhd, gwcpLoop_found c c (Or.inl rfl) hcc s t 2 hpre]
  simp [insertLabel, setupPeriodRow, hpos]

theorem insertLabel_notmem (hd c : String) (rest : List String)
    (hhd : hasSub "Period" hd = true) (hnm : c ∉ rest)
    (hle : ∀ l ∈ rest, strLe l c) (hclean : ∀ l ∈ rest, cleanLabel l) :
    insertLabel (hd :: rest) c = hd :: (rest ++ [c]) := by
  have hlt : ∀ l ∈ rest, cleanLabel l ∧ pyLtb l c = true := by
    intro l hl
    refine ⟨hclean l hl, strLt_of_le_of_ne (hle l hl) ?_⟩
    intro he
    exact hnm (he ▸ hl)
  have hpos : get_GWorkSheetCellPosition (hd :: rest) c
      = (2 + rest.length, false) := by
    rw [gwcp_cons hhd, gwcpLoop_all_lt c rest 2 hlt]
  have h21 : 2 + rest.length - 1 = (hd :: rest).length + 1 - 1 := by
    simp only [List.length_cons]
    omega
  simp only [insertLabel, setupPeriodRow, hpos, Bool.false_eq_true, if_false,
    ite_false]
  unfold insertAt1
  rw [h21]
  simp only [Nat.add_sub_cancel, List.take_length, List.drop_length,
    List.cons_append, List.append_nil]

theorem insertAll_sorted_inv (hd : String) (hhd : hasSub "Period" hd = true) :
    ∀ (ls rest : List String),
      rest.Pairwise strLt → (∀ l ∈ rest, cleanLabel l) →
      ls.Pairwise strLe → (∀ l ∈ ls, cleanLabel l) →
      (∀ r ∈ rest, ∀ l ∈ ls, strLe r l) →
      ∃ rest2, insertAll (hd :: rest) ls = hd :: rest2
        ∧ rest2.Pairwise strLt ∧ (∀ l ∈ rest2, cleanLabel l)
  | [], rest, hs, hc, _, _, _ => ⟨rest, rfl, hs, hc⟩
  | c :: ls, rest, hs, hc, hasc, hlsc, hb => by
    obtain ⟨hcls, hasc2⟩ := List.pairwise_cons.mp hasc
    have hstep : insertAll (hd :: rest) (c :: ls)
        = insertAll (insertLabel (hd :: rest) c) ls := rfl
    by_cases hmem : c ∈ rest
    · rw [hstep, insertLabel_mem hd c rest hhd hmem hs hc]
      exact insertAll_sorted_inv hd hhd ls rest hs hc hasc2
        (fun l hl => hlsc l (List.mem_cons_of_mem c hl))
        (fun r hr l hl => hb r hr l (List.mem_cons_of_mem c hl))
    · rw [hstep, insertLabel_notmem hd c rest hhd hmem
        (fun r hr => hb r hr c (List.mem_cons_self _ _)) hc]
      apply insertAll_sorted_inv hd hhd ls (rest ++ [c])
      · rw [List.pairwise_append]
        refine ⟨hs, List.pairwise_singleton _ _, ?_⟩
        intro r hr b hbm
        rw [List.mem_singleton] at hbm
        subst hbm
        exact strLt_of_le_of_ne (hb r hr b (List.mem_cons_self _ _))
          (fun he => hmem (he ▸ hr))
      · intro l hl
        rcases List.mem_append.mp hl with hl2 | hl2
        · exact hc l hl2
        · rw [List.mem_singleton] at hl2
          subst hl2
          exact hlsc l (List.mem_cons_self _ _)
      · exact hasc2
      · exact fun l hl => hlsc l (List.mem_cons_of_mem c hl)
      · intro r hr l hl
        rcases List.mem_append.mp hr with hr2 | hr2
        · exact hb r hr2 l (List.mem_cons_of_mem c hl)
        · rw [List.mem_singleton] at hr2
          subst hr2
          exact hcls l hl

theorem colInsertLabel_eq (axis : List String) (c : String) :
    colInsertLabel axis c = insertLabel axis c := by
  simp only [colInsertLabel, insertLabel, get_vo_cell, setupPeriodRow,
    get_vo_cell_position_eq]
  rcases h : get_GWorkSheetCellPosition axis c with ⟨p, f⟩
  cases f <;> simp

theorem colInsertAll_eq : ∀ (ls : List String) (axis : List String),
    colInsertAll axis ls = insertAll axis ls
  | [], _ => rfl
  | c :: ls, axis => by
    have h1 : colInsertAll axis (c :: ls)
        = colInsertAll (colInsertLabel axis c) ls := rfl
    have h2 : insertAll axis (c :: ls)
        = insertAll (insertLabel axis c) ls := rfl
    rw [h1, h2, colInsertLabel_eq]
    exact colInsertAll_eq ls _

/-- C4: for every sequence of label insertions performed through the
locate-then-insert protocol in ascending label order (labels clean of the
header marker and non-empty), the axis below the header stays strictly
sorted in ascending Python string order and free of duplicates; and the
column-axis protocol (`get_vo_cell`) produces the very same axis as the
row-axis protocol, so both axes keep the invariant. -/
theorem C4_ascending_inserts_keep_axis_sorted (hd : String) (ls : List String)
    (hhd : hasSub "Period" hd = true)
    (hasc : ls.Pairwise strLe)
    (hclean : ∀ l ∈ ls, cleanLabel l) :
    (∃ rest, insertAll [hd] ls = hd :: rest
       ∧ rest.Pairwise strLt ∧ rest.Nodup)
    ∧ colInsertAll [hd] ls = insertAll [hd] ls := by
  obtain ⟨rest2, heq, hs, _⟩ := insertAll_sorted_inv hd hhd ls []
    List.Pairwise.nil (by simp) hasc hclean (by simp)
  refine ⟨⟨rest2, heq, hs, ?_⟩, colInsertAll_eq ls [hd]⟩
  exact hs.imp (fun h => strLt_ne h)

/-- Witness for C4: inserting `alpha`, `beta`, `beta` (ascending, with one
repeat) into a header-only grid leaves a strictly sorted duplicate-free
axis, identically on both axes. -/
theorem C4_ascending_inserts_keep_axis_sorted_witness :
    (hasSub "Period" "Period" = true
      ∧ (["alpha", "beta", "beta"] : List String).Pairwise strLe
      ∧ ∀ l ∈ (["alpha", "beta", "beta"] : List String), cleanLabel l)
    ∧ (∃ rest, insertAll ["Period"] ["alpha", "beta", "beta"]
          = "Period" :: rest ∧ rest.Pairwise strLt ∧ rest.Nodup)
    ∧ colInsertAll ["Period"] ["alpha", "beta", "beta"]
        = insertAll ["Period"] ["alpha", "beta", "beta"] :=
  ⟨⟨by decide, by decide, by decide⟩,
   (C4_ascending_inserts_keep_axis_sorted "Period" ["alpha", "beta", "beta"]
     (by decide) (by decide) (by decide)).1,
   (C4_ascending_inserts_keep_axis_sorted "Period" ["alpha", "beta", "beta"]
     (by decide) (by decide) (by decide)).2⟩

/-- C6: any `KeyError` raised while processing one eligible entity's
fetched records is caught by the per-entity handler: that entity's
remaining record processing is abandoned, the state at the raise point
(with its partially applied updates) is kept, and the run continues with
the next entity — the failure is never fatal to the run. -/
theorem C6_keyerror_is_entity_local (env : Env) (fetch : String → List Record)
    (pp : Nat) (d : VODetails) (s : AggState) (ds : List VODetails)
    (e : VODetails × AggState)
    (helig : eligible env d = true)
    (herr : processRecords pp (fetch d.Name) d
        { s with fetches := s.fetches ++ [d.Name] } = Except.error e) :
    runEntity env fetch pp d s = e
    ∧ runVOList env fetch pp (d :: ds) s = runVOList env fetch pp ds e.2 := by
  have h1 : runEntity env fetch pp d s = e := by
    simp only [runEntity, helig, if_true, herr]
  exact ⟨h1, by simp only [runVOList, h1]⟩

/-- Witness for C6: a record whose `Total` field is missing raises after the
fetch; the entity's processing stops with the fetch logged and nothing else
changed, and a following entity is still processed from that state. -/
theorem C6_keyerror_is_entity_local_witness :
    (eligible sampleEnv sampleVO = true
      ∧ processRecords 2
          ((fun _ => [(⟨some "site-Total", none⟩ : Record)]) sampleVO.Name)
          sampleVO
          { emptyState with fetches := emptyState.fetches ++ [sampleVO.Name] }
        = Except.error (sampleVO, { emptyState with fetches := ["alpha"] }))
    ∧ runEntity sampleEnv (fun _ => [(⟨some "site-Total", none⟩ : Record)]) 2
        sampleVO emptyState
      = (sampleVO, { emptyState with fetches := ["alpha"] })
    ∧ runVOList sampleEnv (fun _ => [(⟨some "site-Total", none⟩ : Record)]) 2
        [sampleVO, sampleVO] emptyState
      = runVOList sampleEnv (fun _ => [(⟨some "site-Total", none⟩ : Record)]) 2
          [sampleVO] { emptyState with fetches := ["alpha"] } :=
  ⟨⟨by decide, by rfl⟩,
   (C6_keyerror_is_entity_local sampleEnv
     (fun _ => [(⟨some "site-Total", none⟩ : Record)]) 2 sampleVO emptyState
     [sampleVO] (sampleVO, { emptyState with fetches := ["alpha"] })
     (by decide) (by rfl)).1,
   (C6_keyerror_is_entity_local sampleEnv
     (fun _ => [(⟨some "site-Total", none⟩ : Record)]) 2 sampleVO emptyState
     [sampleVO] (sampleVO, { emptyState with fetches := ["alpha"] })
     (by decide) (by rfl)).2⟩

theorem qualifyingSum_cons (r : Record) (rs : List Record) :
    qualifyingSum (r :: rs) = qualifyingTotal r + qualifyingSum rs := by
  simp [qualifyingSum]

theorem processRecord_wf_step (pp : Nat) (d : VODetails) (s : AggState)
    (r : Record) (id : String) (t : Int)
    (hid : r.id = some id) (ht : r.Total = some t) :
    ∃ d1 s1, processRecord pp d s r = Except.ok (d1, s1)
      ∧ s1.total_cpu = s.total_cpu + qualifyingTotal r
      ∧ d1.cpu = d.cpu + qualifyingTotal r := by
  have hq : qualifyingTotal r = if hasSub "Total" id = true then t else 0 := by
    simp [qualifyingTotal, hid, ht]
  by_cases htot : hasSub "Total" id = true
  · simp only [processRecord, hid, ht, processTotalBranch, htot, Bool.not_true,
      Bool.and_false, Bool.false_eq_true, if_false, if_true]
    refine ⟨_, _, rfl, ?_, ?_⟩ <;> simp [hq, htot]
  · rw [Bool.not_eq_true] at htot
    have hq0 : qualifyingTotal r = 0 := by simp [hq, htot]
    by_cases hperc : hasSub "Percent" id = true
    · refine ⟨d, s, ?_, by simp [hq0], by simp [hq0]⟩
      simp only [processRecord, hid, ht, processTotalBranch, htot, hperc,
        Bool.not_true, Bool.false_and, Bool.false_eq_true, if_false, if_true]
    · rw [Bool.not_eq_true] at hperc
      refine ⟨d, s, ?_, by simp [hq0], by simp [hq0]⟩
      simp only [processRecord, hid, ht, processTotalBranch, htot, hperc,
        Bool.not_false, Bool.true_and, Bool.false_eq_true, if_false, if_true]

theorem processRecords_wf (pp : Nat) :
    ∀ (rs : List Record) (d : VODetails) (s : AggState),
      (∀ r ∈ rs, r.id ≠ none ∧ r.Total ≠ none) →
      ∃ d1 s1, processRecords pp rs d s = Except.ok (d1, s1)
        ∧ s1.total_cpu = s.total_cpu + qualifyingSum rs
        ∧ d1.cpu = d.cpu + qualifyingSum rs
  | [], d, s, _ =>
    ⟨d, s, rfl, by simp [qualifyingSum], by simp [qualifyingSum]⟩
  | r :: rs, d, s, hwf => by
    obtain ⟨hid, ht⟩ := hwf r (List.mem_cons_self _ _)
    obtain ⟨id, hid2⟩ := Option.ne_none_iff_exists'.mp hid
    obtain ⟨t, ht2⟩ := Option.ne_none_iff_exists'.mp ht
    obtain ⟨d1, s1, hstep, hts, hds⟩ :=
      processRecord_wf_step pp d s r id t hid2 ht2
    obtain ⟨d2, s2, hrec, hts2, hds2⟩ := processRecords_wf pp rs d1 s1
      (fun x hx => hwf x (List.mem_cons_of_mem r hx))
    refine ⟨d2, s2, ?_, ?_, ?_⟩
    · simp only [processRecords, hstep, hrec]
    · rw [hts2, hts, qualifyingSum_cons]
      omega
    · rw [hds2, hds, qualifyingSum_cons]
      omega

theorem runVOList_total (env : Env) (fetch : String → List Record) (pp : Nat)
    (hwf : ∀ (nm : String), ∀ r ∈ fetch nm, r.id ≠ none ∧ r.Total ≠ none) :
    ∀ (ds : List VODetails) (s : AggState),
      (runVOList env fetch pp ds s).total_cpu
        = s.total_cpu + ((ds.filter (fun d => eligible env d)).map
            (fun d => qualifyingSum (fetch d.Name))).sum
  | [], s => by simp [runVOList]
  | d :: ds, s => by
    by_cases helig : eligible env d = true
    · obtain ⟨d1, s1, hrec, hts, _⟩ := processRecords_wf pp (fetch d.Name) d
        { s with fetches := s.fetches ++ [d.Name] } (hwf d.Name)
      have hent : runEntity env fetch pp d s = (d1, s1) := by
        simp only [runEntity, helig, if_true, hrec]
      have hstep : runVOList env fetch pp (d :: ds) s
          = runVOList env fetch pp ds s1 := by
        simp only [runVOList, hent]
      have hts2 : s1.total_cpu = s.total_cpu + qualifyingSum (fetch d.Name) := by
        simpa using hts
      rw [hstep, runVOList_total env fetch pp hwf ds s1, hts2,
        List.filter_cons_of_pos (by simpa using helig), List.map_cons,
        List.sum_cons]
      omega
    · rw [Bool.not_eq_true] at helig
      have hent : runEntity env fetch pp d s = (d, s) := by
        simp [runEntity, helig]
      have hstep : runVOList env fetch pp (d :: ds) s
          = runVOList env fetch pp ds s := by
        simp only [runVOList, hent]
      rw [hstep, runVOList_total env fetch pp hwf ds s,
        List.filter_cons_of_neg (by simpa using helig)]

/-- C7: on a qualifying `"Total"` record the entity's cumulative counter and
the process-wide run-total accumulator each grow by exactly the record's
`Total` value, in exact integer arithmetic; and over a whole run on
well-formed fetch results, the final run total equals the starting total
plus the sum of the `Total` values of all qualifying records of all
eligible (processed) entities. -/
theorem C7_totals_exact_and_sum (env : Env) (fetch : String → List Record)
    (pp : Nat) (ds : List VODetails) (s : AggState)
    (hwf : ∀ (nm : String), ∀ r ∈ fetch nm, r.id ≠ none ∧ r.Total ≠ none) :
    ((runVOList env fetch pp ds s).total_cpu
        = s.total_cpu + ((ds.filter (fun d => eligible env d)).map
            (fun d => qualifyingSum (fetch d.Name))).sum)
    ∧ (∀ (d : VODetails) (s2 : AggState) (r : Record) (id : String) (t : Int),
        r.id = some id → r.Total = some t → hasSub "Total" id = true →
        ∃ d1 s1, processRecord pp d s2 r = Except.ok (d1, s1)
          ∧ s1.total_cpu = s2.total_cpu + t ∧ d1.cpu = d.cpu + t) := by
  refine ⟨runVOList_total env fetch pp hwf ds s, ?_⟩
  intro d s2 r id t hid ht htot
  obtain ⟨d1, s1, hstep, hts, hds⟩ := processRecord_wf_step pp d s2 r id t hid ht
  have hq : qualifyingTotal r = t := by simp [qualifyingTotal, hid, ht, htot]
  exact ⟨d1, s1, hstep, by rw [hts, hq], by rw [hds, hq]⟩

/-- Witness for C7: one eligible entity whose fetch returns a provider
record (40) and a total record (300); the run total lands at exactly 300. -/
theorem C7_totals_exact_and_sum_witness :
    (∀ (nm : String), ∀ r ∈ sampleFetch nm, r.id ≠ none ∧ r.Total ≠ none)
    ∧ (runVOList sampleEnv sampleFetch 2 [sampleVO] emptyState).total_cpu
      = emptyState.total_cpu
        + ((([sampleVO].filter (fun d => eligible sampleEnv d)).map
            (fun d => qualifyingSum (sampleFetch d.Name)))).sum :=
  ⟨by
    intro nm
    change ∀ r ∈ [(⟨some "site1", some 40⟩ : Record),
      ⟨some "alpha-Total", some 300⟩], r.id ≠ none ∧ r.Total ≠ none
    decide,
   (C7_totals_exact_and_sum sampleEnv sampleFetch 2 [sampleVO] emptyState
     (by
       intro nm
       change ∀ r ∈ [(⟨some "site1", some 40⟩ : Record),
         ⟨some "alpha-Total", some 300⟩], r.id ≠ none ∧ r.Total ≠ none
       decide)).1⟩

theorem processRecord_cells (pp : Nat) (d : VODetails) (s : AggState)
    (r : Record) :
    ∃ extra, (stateOf (processRecord pp d s r)).cells = s.cells ++ extra
      ∧ ∀ c ∈ extra, c.1 = pp := by
  rcases hid : r.id with _ | id
  · exact ⟨[], by simp [processRecord, hid, stateOf], by simp⟩
  · by_cases hcond : (!hasSub "Percent" id && !hasSub "Total" id) = true
    · have htot : hasSub "Total" id = false := by
        have h2 := (Bool.and_eq_true _ _).mp hcond
        simpa using h2.2
      rcases ht : r.Total with _ | t
      · exact ⟨[], by simp [processRecord, hid, hcond, ht, stateOf], by simp⟩
      · exact ⟨[], by simp [processRecord, processTotalBranch, hid, hcond, ht,
          htot, stateOf], by simp⟩
    · by_cases htot : hasSub "Total" id = true
      · rcases ht : r.Total with _ | t
        · exact ⟨[], by simp [processRecord, processTotalBranch, hid, hcond,
            ht, htot, stateOf], by simp⟩
        · refine ⟨[(pp, (get_vo_cell s.colAxis d.Name).2, pyFormat7d t)],
            ?_, by simp⟩
          simp [processRecord, processTotalBranch, hid, hcond, ht, htot,
            stateOf]
      · rw [Bool.not_eq_true] at htot
        have hperc : hasSub "Percent" id = true := by
          rcases Bool.eq_false_or_eq_true (hasSub "Percent" id) with h | h
          · exact h
          · exact absurd (by simp [h, htot]) hcond
        exact ⟨[], by simp [processRecord, processTotalBranch, hid, hcond,
          htot, hperc, stateOf], by simp⟩

theorem processRecords_cells (pp : Nat) :
    ∀ (rs : List Record) (d : VODetails) (s : AggState),
      ∃ extra, (stateOf (processRecords pp rs d s)).cells = s.cells ++ extra
        ∧ ∀ c ∈ extra, c.1 = pp
  | [], d, s => ⟨[], by simp [processRecords, stateOf], by simp⟩
  | r :: rs, d, s => by
    obtain ⟨e1, he1, hp1⟩ := processRecord_cells pp d s r
    cases hr : processRecord pp d s r with
    | error e =>
      refine ⟨e1, ?_, hp1⟩
      have hstep : processRecords pp (r :: rs) d s = Except.error e := by
        simp [processRecords, hr]
      rw [hr] at he1
      rw [hstep]
      exact he1
    | ok x =>
      obtain ⟨d1, s1⟩ := x
      obtain ⟨e2, he2, hp2⟩ := processRecords_cells pp rs d1 s1
      refine ⟨e1 ++ e2, ?_, ?_⟩
      · have hstep : processRecords pp (r :: rs) d s
            = processRecords pp rs d1 s1 := by
          simp [processRecords, hr]
        rw [hr] at he1
        simp only [stateOf] at he1
        rw [hstep, he2, he1, List.append_assoc]
      · intro c hc
        rcases List.mem_append.mp hc with h | h
        exacts [hp1 c h, hp2 c h]

theorem runEntity_cells (env : Env) (fetch : String → List Record) (pp : Nat)
    (d : VODetails) (s : AggState) :
    ∃ extra, (runEntity env fetch pp d s).2.cells = s.cells ++ extra
      ∧ ∀ c ∈ extra, c.1 = pp := by
  by_cases helig : eligible env d = true
  · obtain ⟨e, he, hp⟩ := processRecords_cells pp (fetch d.Name) d
      { s with fetches := s.fetches ++ [d.Name] }
    refine ⟨e, ?_, hp⟩
    have hrun : (runEntity env fetch pp d s).2
        = stateOf (processRecords pp (fetch d.Name) d
            { s with fetches := s.fetches ++ [d.Name] }) := by
      simp only [runEntity, helig, if_true]
      cases processRecords pp (fetch d.Name) d
          { s with fetches := s.fetches ++ [d.Name] } <;>
        simp [stateOf]
    rw [hrun, he]
  · rw [Bool.not_eq_true] at helig
    exact ⟨[], by simp [runEntity, helig], by simp⟩

theorem runVOList_cells (env : Env) (fetch : String → List Record) (pp : Nat) :
    ∀ (ds : List VODetails) (s : AggState),
      ∃ extra, (runVOList env fetch pp ds s).cells = s.cells ++ extra
        ∧ ∀ c ∈ extra, c.1 = pp
  | [], s => ⟨[], by simp [runVOList], by simp⟩
  | d :: ds, s => by
    obtain ⟨e1, he1, hp1⟩ := runEntity_cells env fetch pp d s
    obtain ⟨e2, he2, hp2⟩ :=
      runVOList_cells env fetch pp ds (runEntity env fetch pp d s).2
    refine ⟨e1 ++ e2, ?_, ?_⟩
    · show (runVOList env fetch pp ds (runEntity env fetch pp d s).2).cells = _
      rw [he2, he1, List.append_assoc]
    · intro c hc
      rcases List.mem_append.mp hc with h | h
      exacts [hp1 c h, hp2 c h]

/-- C8: when the row axis holds an empty label at or before the period's
sorted position (every earlier participating label sorting strictly before
the period), the row positioner stops at that empty slot with
`exists = true`, so the aggregator inserts no row and the period label is
never written anywhere — the axis is unchanged and still lacks the label —
while every cell write of the run goes to that row position. -/
theorem C8_empty_slot_hides_period_label (hd period : String)
    (pre post : List String) (env : Env) (fetch : String → List Record)
    (ds : List VODetails) (s : AggState)
    (hhd : hasSub "Period" hd = true)
    (hpre : ∀ l ∈ pre, cleanLabel l ∧ pyLtb l period = true)
    (hnm : period ∉ hd :: (pre ++ "" :: post)) :
    get_GWorkSheetCellPosition (hd :: (pre ++ "" :: post)) period
      = (pre.length + 2, true)
    ∧ setupPeriodRow (hd :: (pre ++ "" :: post)) period
      = (hd :: (pre ++ "" :: post), pre.length + 2, true)
    ∧ period ∉ (setupPeriodRow (hd :: (pre ++ "" :: post)) period).1
    ∧ ∀ c ∈ (runVOList env fetch (pre.length + 2) ds s).cells,
        c ∈ s.cells ∨ c.1 = pre.length + 2 := by
  have hscan : get_GWorkSheetCellPosition (hd :: (pre ++ "" :: post)) period
      = (pre.length + 2, true) := by
    rw [gwcp_cons hhd,
      gwcpLoop_found period "" (Or.inr rfl) (by decide) pre post 2 hpre,
      Nat.add_comm]
  have hsetup : setupPeriodRow (hd :: (pre ++ "" :: post)) period
      = (hd :: (pre ++ "" :: post), pre.length + 2, true) := by
    simp [setupPeriodRow, hscan]
  refine ⟨hscan, hsetup, ?_, ?_⟩
  · rw [hsetup]
    exact hnm
  · intro c hc
    obtain ⟨extra, he, hp⟩ := runVOList_cells env fetch (pre.length + 2) ds s
    rw [he] at hc
    rcases List.mem_append.mp hc with h | h
    · exact Or.inl h
    · exact Or.inr (hp c h)

/-- Witness for C8: axis `["Period", "", "2030.01-06"]` and period
`2024.01-06` — found at the empty slot (row 2), no insertion, label absent,
and a run's writes all target row 2. -/
theorem C8_empty_slot_hides_period_label_witness :
    (hasSub "Period" "Period" = true
      ∧ (∀ l ∈ ([] : List String), cleanLabel l ∧ pyLtb l "2024.01-06" = true)
      ∧ "2024.01-06" ∉ ("Period" :: ([] ++ "" :: ["2030.01-06"])))
    ∧ get_GWorkSheetCellPosition ("Period" :: ([] ++ "" :: ["2030.01-06"]))
        "2024.01-06" = (([] : List String).length + 2, true)
    ∧ "2024.01-06" ∉ (setupPeriodRow ("Period" :: ([] ++ "" :: ["2030.01-06"]))
        "2024.01-06").1
    ∧ ∀ c ∈ (runVOList sampleEnv sampleFetch (([] : List String).length + 2)
        [sampleVO] emptyState).cells,
        c ∈ emptyState.cells ∨ c.1 = ([] : List String).length + 2 :=
  ⟨⟨by decide, by simp, by decide⟩,
   (C8_empty_slot_hides_period_label "Period" "2024.01-06" [] ["2030.01-06"]
     sampleEnv sampleFetch [sampleVO] emptyState
     (by decide) (by simp) (by decide)).1,
   (C8_empty_slot_hides_period_label "Period" "2024.01-06" [] ["2030.01-06"]
     sampleEnv sampleFetch [sampleVO] emptyState
     (by decide) (by simp) (by decide)).2.2.1,
   (C8_empty_slot_hides_period_label "Period" "2024.01-06" [] ["2030.01-06"]
     sampleEnv sampleFetch [sampleVO] emptyState
     (by decide) (by simp) (by decide)).2.2.2⟩

end OKR
